import Mathlib

/-!
Verification of the K-Means clustering notebook (`kmeans.ipynb`).

The notebook's core is embedded shallowly: embeddings and centroids are
lists of rationals (exact arithmetic in place of float32), distances are
real numbers (`Real.sqrt` of the rational sum of squares), and the JAX
library primitives consumed by the core (`random.PRNGKey`,
`random.choice`) are modelled as deterministic functions of the seed that
keep the library's documented contract.  Fallible steps (a library error
raised by `random.choice`, Python's unbound-local failure in `kmeans`)
are `Option`-valued.
-/

namespace KMeans

/-- The notebook-global constant `K = 2` (third cell).  The core functions
read this global directly. -/
def K : Nat := 2

/-- The notebook-global constant `VECTORS = 32` (demo input size; the core
never reads it). -/
def VECTORS : Nat := 32

/-- The notebook-global constant `VECTOR_LENGTH = 64` (demo input
dimension; the core never reads it). -/
def VECTOR_LENGTH : Nat := 64

/-- An embedding (or a centroid): a vector of numeric components,
modelled with exact rationals in place of float32. -/
abbrev Emb := List ℚ

/-- Model of `jax.random.PRNGKey`: the key is identified with the seed,
which is all the core observes (determinism in the seed). -/
def PRNGKey (seed : Nat) : Nat := seed

/-- Model of `jax.random.choice(key, jnp.arange n, shape=(k,), replace=False)`:
a deterministic draw of `k` distinct indices from `[0, n)`.  The library's
uniform distribution is not modelled; the model keeps the library's
contract: the draw is a pure function of the key, the indices are
pairwise distinct (sampling without replacement), and the call fails
(raises `ValueError`, here `none`) when `k > n`. -/
def randomChoice (key n k : Nat) : Option (List Nat) :=
  if k ≤ n then some (((List.range n).map (fun i => (i + key) % n)).take k)
  else none

/-- Embedding of `initialize_centroids(embeddings, k, key)` (fourth cell):
`indices = random.choice(key, jnp.arange(embeddings.shape[0]), shape=(K,), replace=False)`
then `jnp.take(embeddings, indices, axis=0)`.  Note that the body samples
`shape=(K,)` with the notebook-global `K`, not the parameter `k`:
the parameter is ignored, exactly as in the source.  `none` models the
library error when `K` exceeds the number of rows. -/
def initialize_centroids (embeddings : List Emb) (k : Nat) (key : Nat) :
    Option (List Emb) :=
  (randomChoice key embeddings.length K).map
    (fun indices => indices.map (fun i => embeddings.getD i []))

/-- The summand of `jnp.sum((embedding - centroids)**2, axis=-1)` for one
centroid row: the sum over components of the squared differences. -/
def sqdist (e c : List ℚ) : ℚ :=
  (List.zipWith (fun a b => (a - b) * (a - b)) e c).sum

/-- Embedding of `compute_distances(embedding, centroids)` (fifth cell):
`jnp.sqrt(jnp.sum((embedding - centroids)**2, axis=-1))`, i.e. for each
centroid row the square root of the sum of squared component
differences. -/
noncomputable def compute_distances (e : Emb) (centroids : List Emb) :
    List ℝ :=
  centroids.map (fun c => Real.sqrt ((sqdist e c : ℚ) : ℝ))

/-- Model of `jnp.argmin`: the index of the first occurrence of the
minimum of the list (ties resolved to the lowest index, as in
numpy/jax).  Defined as the first index whose value is a lower bound of
the whole list. -/
def argmin {α : Type} [LinearOrder α] (l : List α) : Nat :=
  l.findIdx (fun x => decide (∀ y ∈ l, x ≤ y))

/-- Embedding of `assign_clusters(embeddings, centroids)` (sixth cell):
`vmap(compute_distances)` over the embeddings followed by
`jnp.argmin(distances, axis=-1)` per row. -/
noncomputable def assign_clusters (embeddings : List Emb)
    (centroids : List Emb) : List Nat :=
  embeddings.map (fun e => argmin (compute_distances e centroids))

/-- Column-wise sum of a list of rows: `jnp.sum(·, axis=0)` on an `N×D`
array (every row of the pipeline has the same length `D`). -/
def vecSumQ : List (List ℚ) → List ℚ
  | [] => []
  | [v] => v
  | v :: vs => List.zipWith (· + ·) v (vecSumQ vs)

/-- Embedding of the inner `update_centroid(i)` of `update_centroids`
(seventh cell): `mask = jnp.equal(assignments, i)`,
`masked_embeddings = jnp.where(mask[:, None], embeddings, 0)`,
`jnp.sum(masked_embeddings, axis=0) / jnp.sum(mask)`.  Over `ℚ` the
division of the zero column-sums of an empty cluster by its zero count
yields `0` where IEEE floats yield NaN; that IEEE behaviour is modelled
separately by `update_centroid_ieee`. -/
def update_centroid (embeddings : List Emb) (assignments : List Nat)
    (i : Nat) : Emb :=
  let mask := assignments.map (fun a => decide (a = i))
  let masked := List.zipWith
    (fun m (e : Emb) => if m then e else e.map (fun _ => (0 : ℚ)))
    mask embeddings
  let cnt : ℚ := (mask.count true : Nat)
  (vecSumQ masked).map (fun x => x / cnt)

/-- Embedding of `update_centroids(embeddings, assignments, k)` (seventh
cell): `jax.vmap(update_centroid)(jnp.arange(K))`.  As in the source the
range is the notebook-global `K`, not the parameter `k`: the parameter is
ignored. -/
def update_centroids (embeddings : List Emb) (assignments : List Nat)
    (k : Nat) : List Emb :=
  (List.range K).map (update_centroid embeddings assignments)

/-- An IEEE-style component value: a finite rational, an infinity, or
not-a-number.  Used to model faithfully the float division of
`update_centroid` where the `ℚ` pipeline would silently read `x / 0 = 0`. -/
inductive FVal where
  | fin (q : ℚ)
  | inf
  | neginf
  | nan
deriving DecidableEq

/-- IEEE division restricted to the finite operands `update_centroid`
produces: `0 / 0` is NaN, `x / 0` for finite nonzero `x` is a signed
infinity, any NaN operand propagates. -/
def FVal.div : FVal → FVal → FVal
  | FVal.fin a, FVal.fin b =>
      if b = 0 then
        if a = 0 then FVal.nan
        else if 0 < a then FVal.inf else FVal.neginf
      else FVal.fin (a / b)
  | _, _ => FVal.nan

/-- The inner `update_centroid(i)` again, with the final float division
modelled by IEEE rules (`FVal.div`) instead of `ℚ` division: the mask,
the masked rows and the column sums are exactly as in `update_centroid`. -/
def update_centroid_ieee (embeddings : List Emb) (assignments : List Nat)
    (i : Nat) : List FVal :=
  let mask := assignments.map (fun a => decide (a = i))
  let masked := List.zipWith
    (fun m (e : Emb) => if m then e else e.map (fun _ => (0 : ℚ)))
    mask embeddings
  let cnt : ℚ := (mask.count true : Nat)
  (vecSumQ masked).map (fun x => FVal.div (FVal.fin x) (FVal.fin cnt))

/-- The loop body of `kmeans` (eighth cell): from the current centroids,
`assignments = assign_clusters(embeddings, centroids)` then
`centroids = update_centroids(embeddings, assignments, k)`.  The second
state component records the last value bound to the Python variable
`assignments` (`none` while it is still unbound). -/
noncomputable def kstep (embeddings : List Emb) (k : Nat)
    (st : List Emb × Option (List Nat)) : List Emb × Option (List Nat) :=
  let a := assign_clusters embeddings st.1
  (update_centroids embeddings a k, some a)

/-- Embedding of `kmeans(embeddings, k, num_iters, seed)` (eighth cell):
`key = random.PRNGKey(seed)`, `centroids = initialize_centroids(...)`,
then `for _ in range(num_iters)` of the loop body, then
`return centroids, assignments`.  `none` models the two failure modes of
the source: the library error inside `initialize_centroids`, and the
unbound-local failure of `assignments` at the `return` when the loop
body never ran. -/
noncomputable def kmeans (embeddings : List Emb) (k num_iters seed : Nat) :
    Option (List Emb × List Nat) :=
  match initialize_centroids embeddings k (PRNGKey seed) with
  | none => none
  | some c0 =>
    let st := (List.range num_iters).foldl
      (fun s _ => kstep embeddings k s) (c0, none)
    match st.2 with
    | none => none
    | some a => some (st.1, a)

/-- The reference loop of the specification: `cIter t` is the centroid
state after `t` rounds of "recompute assignments from the current
centroids, then recompute centroids from those assignments", starting
from initial centroids `c0`. -/
noncomputable def cIter (embeddings : List Emb) (k : Nat) (c0 : List Emb) :
    Nat → List Emb
  | 0 => c0
  | n + 1 =>
      update_centroids embeddings
        (assign_clusters embeddings (cIter embeddings k c0 n)) k

/-! ### Helper lemmas about `argmin` -/

/-- A nonempty list has a least element. -/
lemma exists_min_mem {α : Type} [LinearOrder α] (l : List α) (h : l ≠ []) :
    ∃ x ∈ l, ∀ y ∈ l, x ≤ y := by
  induction l with
  | nil => exact absurd rfl h
  | cons a t ih =>
    rcases eq_or_ne t [] with rfl | ht
    · exact ⟨a, List.mem_cons_self a [], by simp⟩
    · obtain ⟨x, hx, hmin⟩ := ih ht
      rcases le_total a x with hax | hxa
      · refine ⟨a, List.mem_cons_self a t, ?_⟩
        intro y hy
        rcases List.mem_cons.mp hy with rfl | hy
        · exact le_refl y
        · exact le_trans hax (hmin y hy)
      · refine ⟨x, List.mem_cons_of_mem a hx, ?_⟩
        intro y hy
        rcases List.mem_cons.mp hy with rfl | hy
        · exact hxa
        · exact hmin y hy

lemma argmin_lt_length {α : Type} [LinearOrder α] (l : List α)
    (h : l ≠ []) : argmin l < l.length := by
  obtain ⟨x, hx, hmin⟩ := exists_min_mem l h
  exact List.findIdx_lt_length_of_exists ⟨x, hx, by simpa using hmin⟩

/-- The value at `argmin` is a lower bound of the list. -/
lemma argmin_le {α : Type} [LinearOrder α] (l : List α)
    (h : argmin l < l.length) : ∀ y ∈ l, l.get ⟨argmin l, h⟩ ≤ y := by
  have := @List.findIdx_getElem _ (fun x => decide (∀ y ∈ l, x ≤ y)) l h
  simpa using this

/-- First-occurrence property of `argmin`: any index whose value is no
larger than the minimum lies at or after `argmin`. -/
lemma argmin_le_of_le {α : Type} [LinearOrder α] (l : List α) (j : Nat)
    (hj : j < l.length) (ha : argmin l < l.length)
    (hle : l.get ⟨j, hj⟩ ≤ l.get ⟨argmin l, ha⟩) : argmin l ≤ j := by
  by_contra hcon
  have hjl : j < argmin l := Nat.lt_of_not_le (fun hl => hcon hl)
  have hfalse := @List.not_of_lt_findIdx _
    (fun x => decide (∀ y ∈ l, x ≤ y)) l j hjl
  have hnot : ¬ (∀ y ∈ l, l.get ⟨j, hj⟩ ≤ y) := by
    simpa using hfalse
  refine hnot ?_
  intro y hy
  exact le_trans hle (argmin_le l ha y hy)

/-! ### Claim theorems -/

/-- Claim C10: with `num_iters = 0` the loop body of `kmeans` never runs, the
Python variable `assignments` is never bound, and the final
`return centroids, assignments` fails: `kmeans` produces no result pair,
for every dataset, every `k` and every seed. -/
theorem kmeans_zero_iters_no_result (embeddings : List Emb) (k seed : Nat) :
    kmeans embeddings k 0 seed = none := by
  unfold kmeans
  cases initialize_centroids embeddings k (PRNGKey seed) <;> simp

/-- Claim C8: the embedded pipeline is a pure function of exactly the dataset,
`k`, `num_iters` and the seed (the only stateful input of the source, the
random generator consumed by `random.choice`, is derived from
`PRNGKey seed` alone): two runs on identical inputs return identical
centroids and assignments. -/
theorem kmeans_deterministic (e1 e2 : List Emb) (k1 k2 n1 n2 s1 s2 : Nat)
    (he : e1 = e2) (hk : k1 = k2) (hn : n1 = n2) (hs : s1 = s2) :
    kmeans e1 k1 n1 s1 = kmeans e2 k2 n2 s2 := by
  subst he hk hn hs
  rfl

theorem kmeans_deterministic_witness :
    kmeans [[0], [1]] 2 1 0 = kmeans [[0], [1]] 2 1 0 :=
  kmeans_deterministic [[0], [1]] [[0], [1]] 2 2 1 1 0 0 rfl rfl rfl rfl

/-- Claim C3 (evaluation at the failing input): on a dataset of three
one-dimensional embeddings with `k = 3`, `initialize_centroids` returns
two centroids, not three — the body samples `shape=(K,)` with the
notebook-global `K = 2` and ignores the parameter `k`. -/
theorem initialize_centroids_ignores_k_count :
    Option.map List.length
      (initialize_centroids [[0], [1], [2]] 3 (PRNGKey 0)) = some 2 := by
  rfl

/-- Claim C2 (evaluation at the failing input): on three one-dimensional
embeddings assigned to clusters 0, 1 and 2 with `k = 3`,
`update_centroids` returns two centroids, not three — the body iterates
`jnp.arange(K)` with the notebook-global `K = 2` and ignores the
parameter `k`, dropping cluster 2 entirely. -/
theorem update_centroids_ignores_k_count :
    (update_centroids [[0], [1], [2]] [0, 1, 2] 3).length = 2 := by
  rfl

/-- Claim C6 (counterexample): with `k = 0` on a two-row dataset the Centroid
Initializer does not fail at all: the `k` parameter is ignored and the
notebook-global `K = 2` indices are drawn successfully, where the claim
demands an `InvalidArgument` failure for `K == 0`. -/
theorem initialize_centroids_accepts_k_zero :
    (initialize_centroids [[0], [1]] 0 (PRNGKey 0)).isSome = true := by
  rfl

/-- Claim C6 (amended): the code performs no argument validation; the only
failure of `initialize_centroids` (and hence the only failure of the run
before iteration) is the library error raised when the number of rows is
below the notebook-global `K = 2` — in particular `N = 0` fails there,
while `k == 0` and `k > N` go undetected because the `k` parameter is
ignored. -/
theorem initialize_centroids_fail_iff (embeddings : List Emb)
    (k key : Nat) :
    initialize_centroids embeddings k key = none
      ↔ embeddings.length < K := by
  unfold initialize_centroids randomChoice
  by_cases h : K ≤ embeddings.length
  · simp [h, Nat.not_lt.mpr h]
  · simp [h, Nat.lt_of_not_le h]

/-- Claim C4: for every dataset and every nonempty centroid collection, the
Assignment Step returns one assignment per embedding (length `N`) and
every assignment is a valid centroid index in `[0, K)`. -/
theorem assign_clusters_wellformed (embeddings centroids : List Emb)
    (hne : centroids ≠ []) :
    (assign_clusters embeddings centroids).length = embeddings.length ∧
    ∀ a ∈ assign_clusters embeddings centroids, a < centroids.length := by
  constructor
  · unfold assign_clusters
    exact List.length_map ..
  · intro a ha
    unfold assign_clusters at ha
    obtain ⟨e, _, rfl⟩ := List.mem_map.mp ha
    have hlen : (compute_distances e centroids).length
        = centroids.length := by
      unfold compute_distances
      exact List.length_map ..
    have hd : compute_distances e centroids ≠ [] := by
      intro hnil
      apply hne
      apply List.length_eq_zero.mp
      rw [← hlen, hnil]
      rfl
    calc argmin (compute_distances e centroids)
        < (compute_distances e centroids).length := argmin_lt_length _ hd
      _ = centroids.length := hlen

theorem assign_clusters_wellformed_witness :
    (assign_clusters [[0], [3]] [[1], [2]]).length = 2 := by
  have h := (assign_clusters_wellformed [[0], [3]] [[1], [2]]
    (by simp)).1
  simpa using h

/-- The fold of the loop body of `kmeans` over `range (n+1)` lands on the
reference sequence: centroid state `cIter (n+1)` and the assignments
computed from the previous centroid state `cIter n`. -/
lemma kmeans_fold (embeddings : List Emb) (k : Nat) (c0 : List Emb)
    (n : Nat) :
    (List.range (n + 1)).foldl (fun s _ => kstep embeddings k s)
        (c0, none) =
      (cIter embeddings k c0 (n + 1),
       some (assign_clusters embeddings (cIter embeddings k c0 n))) := by
  induction n with
  | zero => simp [List.range_succ, kstep, cIter]
  | succ m ih =>
    rw [List.range_succ, List.foldl_append, ih]
    simp [kstep, cIter]

/-- Claim C1: `kmeans` equals the reference loop: when the Initializer yields
`c0` from the seed and `num_iters = n ≥ 1`, the run returns exactly
`(cIter n, assign_clusters (cIter (n-1)))` — the loop runs exactly `n`
times with no early exit, and the returned assignments are the ones
computed against the second-to-last centroid state `cIter (n-1)`, not
against the final centroids `cIter n`. -/
theorem kmeans_matches_reference_loop (embeddings : List Emb)
    (k seed n : Nat) (c0 : List Emb)
    (hinit : initialize_centroids embeddings k (PRNGKey seed) = some c0)
    (hn : 1 ≤ n) :
    kmeans embeddings k n seed
      = some (cIter embeddings k c0 n,
              assign_clusters embeddings (cIter embeddings k c0 (n - 1)))
    := by
  obtain ⟨m, rfl⟩ : ∃ m, n = m + 1 :=
    ⟨n - 1, (Nat.succ_pred_eq_of_pos hn).symm⟩
  unfold kmeans
  rw [hinit]
  simp only [kmeans_fold]
  simp

theorem kmeans_matches_reference_loop_witness :
    kmeans [[0], [1]] 2 1 0
      = some (cIter [[0], [1]] 2 [[0], [1]] 1,
              assign_clusters [[0], [1]] (cIter [[0], [1]] 2 [[0], [1]] 0))
    := by
  exact kmeans_matches_reference_loop [[0], [1]] 2 0 1 [[0], [1]]
    (by rfl) (by decide)

lemma sqdist_cons (a b : ℚ) (t u : List ℚ) :
    sqdist (a :: t) (b :: u) = (a - b) * (a - b) + sqdist t u := by
  simp [sqdist]

/-- The list-operation form of the squared distance equals the indexed
sum of squared component differences, cast to the reals. -/
lemma sqdist_eq_sum (e c : List ℚ) (D : Nat) (he : e.length = D)
    (hc : c.length = D) :
    ((sqdist e c : ℚ) : ℝ)
      = ∑ d ∈ Finset.range D,
          (((e.getD d 0 : ℚ) : ℝ) - ((c.getD d 0 : ℚ) : ℝ)) ^ 2 := by
  induction D generalizing e c with
  | zero =>
    obtain rfl := List.length_eq_zero.mp he
    obtain rfl := List.length_eq_zero.mp hc
    simp [sqdist]
  | succ n ih =>
    cases e with
    | nil => simp at he
    | cons a t =>
      cases c with
      | nil => simp at hc
      | cons b u =>
        rw [sqdist_cons]
        push_cast
        rw [Finset.sum_range_succ']
        simp only [List.getD_cons_succ, List.getD_cons_zero]
        rw [← ih t u (by simpa using he) (by simpa using hc)]
        ring

/-- Claim C7: the Distance Primitive returns one value per centroid, each
nonnegative and equal to the square root of the sum over the `D`
dimensions of the squared component differences. -/
theorem compute_distances_spec (e : Emb) (centroids : List Emb) (D : Nat)
    (he : e.length = D) (hc : ∀ c ∈ centroids, c.length = D) :
    (compute_distances e centroids).length = centroids.length ∧
    ∀ i, i < centroids.length →
      0 ≤ (compute_distances e centroids).getD i 0 ∧
      (compute_distances e centroids).getD i 0
        = Real.sqrt (∑ d ∈ Finset.range D,
            (((e.getD d 0 : ℚ) : ℝ)
              - (((centroids.getD i []).getD d 0 : ℚ) : ℝ)) ^ 2) := by
  have hlen : (compute_distances e centroids).length = centroids.length := by
    unfold compute_distances
    exact List.length_map ..
  refine ⟨hlen, ?_⟩
  intro i hi
  have hi' : i < (compute_distances e centroids).length := by
    rw [hlen]; exact hi
  have hgd : (compute_distances e centroids).getD i 0
      = Real.sqrt ((sqdist e (centroids.getD i []) : ℚ) : ℝ) := by
    rw [List.getD_eq_getElem _ _ hi']
    unfold compute_distances
    rw [List.getElem_map]
    rw [List.getD_eq_getElem _ _ hi]
  rw [hgd]
  refine ⟨Real.sqrt_nonneg _, ?_⟩
  rw [sqdist_eq_sum e _ D he (hc _ ?_)]
  rw [List.getD_eq_getElem _ _ hi]
  exact List.getElem_mem hi

theorem compute_distances_spec_witness :
    (compute_distances [1, 2] [[0, 0]]).length = 1 := by
  have h := (compute_distances_spec [1, 2] [[0, 0]] 2 (by decide)
    (by decide)).1
  simpa using h

/-- Claim C5: left-to-right argmin tie-breaking of the Assignment Step.  If
centroid `j` is at minimal distance from the `m`-th embedding, then the
assigned index is at most `j` and is itself at that same minimal
distance: among equidistant minimal centroids the lowest index wins. -/
theorem assign_clusters_tie_lowest (embeddings centroids : List Emb)
    (m j : Nat) (hm : m < embeddings.length) (hj : j < centroids.length)
    (hmin : ∀ i, i < centroids.length →
      (compute_distances (embeddings.getD m []) centroids).getD j 0
        ≤ (compute_distances (embeddings.getD m []) centroids).getD i 0) :
    (assign_clusters embeddings centroids).getD m 0 ≤ j ∧
    (compute_distances (embeddings.getD m []) centroids).getD
        ((assign_clusters embeddings centroids).getD m 0) 0
      = (compute_distances (embeddings.getD m []) centroids).getD j 0 := by
  have hlen : (compute_distances (embeddings.getD m []) centroids).length
      = centroids.length := by
    unfold compute_distances
    exact List.length_map ..
  have hj' : j < (compute_distances (embeddings.getD m []) centroids).length := by
    rw [hlen]; exact hj
  have hd : compute_distances (embeddings.getD m []) centroids ≠ [] := by
    intro hnil
    rw [hnil] at hj'
    simp at hj'
  have ha : argmin (compute_distances (embeddings.getD m []) centroids)
      < (compute_distances (embeddings.getD m []) centroids).length :=
    argmin_lt_length _ hd
  have haeq : (assign_clusters embeddings centroids).getD m 0
      = argmin (compute_distances (embeddings.getD m []) centroids) := by
    have hm' : m < (assign_clusters embeddings centroids).length := by
      unfold assign_clusters
      rw [List.length_map]
      exact hm
    rw [List.getD_eq_getElem _ _ hm']
    unfold assign_clusters
    rw [List.getElem_map]
    congr 2
    rw [List.getD_eq_getElem _ _ hm]
  have hja : (compute_distances (embeddings.getD m []) centroids).get ⟨j, hj'⟩
      ≤ (compute_distances (embeddings.getD m []) centroids).get
          ⟨argmin (compute_distances (embeddings.getD m []) centroids), ha⟩ := by
    have := hmin (argmin (compute_distances (embeddings.getD m []) centroids))
      (by rw [← hlen]; exact ha)
    rwa [List.getD_eq_get _ _ hj', List.getD_eq_get _ _ ha] at this
  have haj : (compute_distances (embeddings.getD m []) centroids).get
        ⟨argmin (compute_distances (embeddings.getD m []) centroids), ha⟩
      ≤ (compute_distances (embeddings.getD m []) centroids).get ⟨j, hj'⟩ :=
    argmin_le _ ha _ (List.get_mem _ _ _)
  constructor
  · rw [haeq]
    exact argmin_le_of_le _ j hj' ha hja
  · rw [haeq, List.getD_eq_get _ _ ha, List.getD_eq_get _ _ hj']
    exact le_antisymm haj hja

theorem assign_clusters_tie_lowest_witness :
    (assign_clusters [[1, 0]] [[0, 0], [2, 0]]).getD 0 0 ≤ 0 := by
  refine (assign_clusters_tie_lowest [[1, 0]] [[0, 0], [2, 0]] 0 0
    (by decide) (by decide) ?_).1
  intro i hi
  simp only [List.length_cons, List.length_nil] at hi
  interval_cases i <;> norm_num [compute_distances, sqdist]

/-- Applying the mask of `jnp.where` when it is all-false zeroes every row. -/
lemma zipWith_mask_false (mask : List Bool)
    (l : List Emb) (hf : ∀ b ∈ mask, b = false)
    (hlen : mask.length = l.length) :
    List.zipWith (fun m (e : Emb) => if m then e else e.map (fun _ => (0 : ℚ)))
        mask l
      = l.map (fun e => e.map (fun _ => (0 : ℚ))) := by
  induction mask generalizing l with
  | nil =>
    cases l with
    | nil => rfl
    | cons x u => simp at hlen
  | cons b t ih =>
    cases l with
    | nil => simp at hlen
    | cons x u =>
      have hb : b = false := hf b (List.mem_cons_self b t)
      subst hb
      rw [List.zipWith_cons_cons, List.map_cons,
        ih u (fun c hc => hf c (List.mem_cons_of_mem _ hc))
          (by simpa using hlen)]
      simp

/-- Column sums of `n ≥ 1` all-zero rows of width `D` are the zero row. -/
lemma vecSumQ_replicate_zero (n D : Nat) (hn : n ≠ 0) :
    vecSumQ (List.replicate n (List.replicate D (0 : ℚ)))
      = List.replicate D 0 := by
  induction n with
  | zero => exact absurd rfl hn
  | succ m ih =>
    cases m with
    | zero => simp [vecSumQ]
    | succ p =>
      rw [List.replicate_succ, List.replicate_succ]
      show List.zipWith (· + ·) (List.replicate D (0 : ℚ))
          (vecSumQ (List.replicate D (0 : ℚ)
            :: List.replicate p (List.replicate D (0 : ℚ))))
        = List.replicate D 0
      rw [← List.replicate_succ, ih (by omega), List.zipWith_replicate]
      simp

/-- Claim C9: empty-cluster behaviour of the Update Step under IEEE float
semantics.  If no embedding is assigned to cluster `i`, the masked rows
are all zero, the column sums are a zero vector, the count is zero, and
every one of the `D` components of centroid `i` is the NaN result of the
division `0 / 0` — not a retained previous value or a re-seeded one. -/
theorem update_centroid_empty_cluster_nan (embeddings : List Emb)
    (assignments : List Nat) (i D : Nat)
    (hlen : assignments.length = embeddings.length)
    (hne : embeddings ≠ [])
    (hD : ∀ e ∈ embeddings, e.length = D)
    (hi : i ∉ assignments) :
    update_centroid_ieee embeddings assignments i
      = List.replicate D FVal.nan := by
  unfold update_centroid_ieee
  dsimp only
  have hcnt : ((assignments.map (fun a => decide (a = i))).count true : ℚ)
      = ((0 : Nat) : ℚ) := by
    norm_cast
    rw [List.count_eq_zero]
    intro hmem
    obtain ⟨a, ha, hdec⟩ := List.mem_map.mp hmem
    exact hi (of_decide_eq_true hdec ▸ ha)
  have hmaskfalse : ∀ b ∈ assignments.map (fun a => decide (a = i)),
      b = false := by
    intro b hb
    obtain ⟨a, ha, rfl⟩ := List.mem_map.mp hb
    by_contra hbt
    have : a = i := of_decide_eq_true (Bool.of_not_eq_false hbt)
    exact hi (this ▸ ha)
  rw [zipWith_mask_false _ _ hmaskfalse (by simpa using hlen)]
  have hrows : embeddings.map (fun e => e.map (fun _ => (0 : ℚ)))
      = List.replicate embeddings.length (List.replicate D (0 : ℚ)) := by
    rw [List.map_congr_left (g := fun _ => List.replicate D (0 : ℚ)) ?_,
      List.map_const']
    intro e he
    rw [List.map_const', hD e he]
  rw [hrows, vecSumQ_replicate_zero _ _
      (by simpa using fun h => hne (List.length_eq_zero.mp h)),
    hcnt, List.map_replicate]
  simp [FVal.div]

theorem update_centroid_empty_cluster_nan_witness :
    update_centroid_ieee [[1], [2]] [0, 0] 1
      = List.replicate 1 FVal.nan := by
  exact update_centroid_empty_cluster_nan [[1], [2]] [0, 0] 1 1
    (by decide) (by decide) (by decide) (by decide)

end KMeans
